import Mathlib

/-!
Verification of the guild configuration store and the reply chunking
algorithm of `src/main.py` (an LLM Discord relay bot).

Strings of the Python source are modelled as `List Char` (Python `str`
slicing corresponds to `List.take` / `List.drop`).  The JSON-backed store
`llm_choices` is modelled as an insertion-ordered association list from
guild id to an entry that is either a legacy bare string (the model name)
or a record `{model, chatId}`.  Fallible operations (Python statements that
can raise `KeyError` / `TypeError`) return `Option`: `none` models the
raised exception, which the surrounding handler catches.
-/

namespace LLMBot

/-- One value of the `llm_choices` mapping: either the legacy bare-string
format (just the model name) or the structured dict
`{'model': ..., 'chatId': ...}` with `chatId` possibly `None`. -/
inductive Entry where
  | legacy (model : String)
  | record (model : String) (chatId : Option String)
deriving DecidableEq, Repr

/-- The in-memory `llm_choices` mapping, insertion ordered like a Python
dict. -/
abbrev Store := List (String × Entry)

/-- Python `llm_choices.get(gid)`: the first (unique) binding for `gid`. -/
def findEntry (store : Store) (gid : String) : Option Entry :=
  (store.find? (fun kv => kv.1 == gid)).map Prod.snd

/-- Python `llm_choices[gid] = e`: replace the existing binding in place,
or append a new one (dicts keep insertion order, new keys go last). -/
def setEntry : Store → String → Entry → Store
  | [], gid, e => [(gid, e)]
  | (k, v) :: rest, gid, e =>
      if k == gid then (k, e) :: rest else (k, v) :: setEntry rest gid e

/-- Effect of the loop body of `migrate_llm_choices` on one entry. -/
def migrateEntry : Entry → Entry
  | .legacy s => .record s none
  | .record m c => .record m c

/-- Whether an entry is in the legacy bare-string format
(`isinstance(data, str)` in the source). -/
def Entry.isLegacy : Entry → Bool
  | .legacy _ => true
  | .record _ _ => false

/-- Function `migrate_llm_choices` (src/main.py lines 55-65): rewrites every
legacy bare-string entry `S` in place to `{'model': S, 'chatId': None}` and
returns whether any rewrite occurred. -/
def migrateAll : Store → Store × Bool
  | [] => ([], false)
  | (gid, data) :: rest =>
      let r := migrateAll rest
      match data with
      | .legacy s => ((gid, .record s none) :: r.1, true)
      | .record m c => ((gid, .record m c) :: r.1, r.2)

/-- The module-level load of `llm_choices` (src/main.py lines 39-47).  The
durable file is `none` when absent, otherwise `some` of its text; `parse`
models `json.load`, returning `none` on `JSONDecodeError`.  A parse failure
is logged and the store reset to `{}`; an absent file also yields `{}`. -/
def loadStore (parse : String → Option Store) (file : Option String) : Store :=
  match file with
  | none => []
  | some text =>
      match parse text with
      | some store => store
      | none => []

/-- Store effect of `/llm-set` (src/main.py lines 276-291), after model
validation has passed.  The source reads
`current_info = llm_choices.get(guild_id)`; a legacy string entry is
replaced by `{'model': model, 'chatId': None}`; otherwise
`llm_choices[guild_id]['model'] = model` runs, which raises `KeyError`
(modelled as `none`) when no entry exists, else sets the model and resets
`chatId` to `None`. -/
def llm_set (store : Store) (gid model : String) : Option Store :=
  match findEntry store gid with
  | some (.legacy _) => some (setEntry store gid (.record model none))
  | some (.record _ _) => some (setEntry store gid (.record model none))
  | none => none

/-- Store effect of `/reset` (src/main.py lines 308-319): if the guild has
an entry, migrate it if legacy, then set `chatId` to `None`; if the guild
has no entry the handler replies "Guild not found" and mutates nothing
(modelled as `none`). -/
def resetStore (store : Store) (gid : String) : Option Store :=
  match findEntry store gid with
  | some (.legacy s) => some (setEntry store gid (.record s none))
  | some (.record m _) => some (setEntry store gid (.record m none))
  | none => none

/-- Python truthiness of an optional string (`if not chat_id`): `None` and
the empty string are falsy. -/
def isTruthy : Option String → Bool
  | none => false
  | some s => s != ""

/-- Store effect of `/clear` (src/main.py lines 399-420): requires an
existing dict entry with a truthy `chatId`; then (after the provider
`chat_break` call) resets `chatId` to `None`.  All other cases reply with
an informational message and mutate nothing (modelled as `none`). -/
def clearStore (store : Store) (gid : String) : Option Store :=
  match findEntry store gid with
  | some (.record m c) =>
      if isTruthy c then some (setEntry store gid (.record m none)) else none
  | some (.legacy _) => none
  | none => none

/-- The session-id update inside `/askpoe` (src/main.py line 172):
`llm_choices[guild_id]['chatId'] = new_chat_id`.  Raises `KeyError`
(`none`) when no entry exists for `gid`, and `TypeError` (`none`) when the
entry is a legacy string (item assignment on `str`). -/
def setSessionId (store : Store) (gid sid : String) : Option Store :=
  match findEntry store gid with
  | some (.record m _) => some (setEntry store gid (.record m (some sid)))
  | some (.legacy _) => none
  | none => none

/-- The defensive in-handler migration of `/askpoe` (lines 145-156) and
`/info` (lines 348-357): `model_info = llm_choices.get(gid, default)`; only
when the stored entry is a legacy string is it rewritten (and then saved,
the returned Bool). -/
def handlerMigrate (store : Store) (gid : String) : Store × Bool :=
  match findEntry store gid with
  | some (.legacy s) => (setEntry store gid (.record s none), true)
  | _ => (store, false)

/-! ## Reply chunking (the long-reply branch of `/askpoe`, lines 185-203) -/

/-- Result of the chunking computation: either the ordered list of message
segments to send, or the failure signalled when even an empty body cannot
fit after the prefix (the handler then sends "too long to display"). -/
inductive ChunkResult where
  | ok (segs : List (List Char))
  | prefixTooLong
deriving DecidableEq, Repr

/-- The remaining-chunk loop
`for i in range(max_chunk_size, len(response), 2000): response[i:i+2000]`
applied to the part of the body after the first segment: repeatedly take
`limit` characters.  Structural fuel (`l.length` at the top call) makes the
definition kernel-computable; the fuel never runs out when `0 < limit`,
matching Python where the range step (the limit) is a positive literal. -/
def splitChunksAux (limit : Nat) : Nat → List Char → List (List Char)
  | _, [] => []
  | 0, _ :: _ => []
  | fuel + 1, c :: rest =>
      (c :: rest).take limit :: splitChunksAux limit fuel ((c :: rest).drop limit)

/-- Successive `limit`-sized slices of `l`, the segments after the first. -/
def splitChunks (limit : Nat) (l : List Char) : List (List Char) :=
  splitChunksAux limit l.length l

/-- The chunking of the `/askpoe` reply (src/main.py lines 185-203), with
the platform ceiling `2000` taken as the parameter `limit`.  If prefix and
body fit together, one message is sent; otherwise
`max_chunk_size = limit - len(pre)` (Nat subtraction: `= 0` exactly when
the Python int is `<= 0`), failing when nothing fits after the prefix, else
the first segment carries the prefix and the rest are `limit`-sized slices
of the remaining body. -/
def chunk (pre body : List Char) (limit : Nat) : ChunkResult :=
  if pre.length + body.length ≤ limit then
    .ok [pre ++ body]
  else
    let available := limit - pre.length
    if available = 0 then
      .prefixTooLong
    else
      .ok ((pre ++ body.take available) :: splitChunks limit (body.drop available))

/-- The body portion of a segment list: the first segment with the prefix
stripped, followed by the remaining segments verbatim. -/
def stripBodies (pre : List Char) : List (List Char) → List Char
  | [] => []
  | s :: rest => s.drop pre.length ++ rest.flatten

/-- Whether `s` starts with the character sequence `p`. -/
def startsWithP (p s : List Char) : Prop :=
  s.take p.length = p

instance (p s : List Char) : Decidable (startsWithP p s) := by
  unfold startsWithP; infer_instance

/-! ## System state: in-memory store plus the durable file -/

/-- The process-wide pair of the in-memory `llm_choices` and the parsed
content of the durable file `llm_choices.json`. -/
structure SysState where
  mem : Store
  file : Store
deriving DecidableEq, Repr

/-- Function `save_llm_choices` (lines 50-52): `json.dump` the whole
in-memory store over the durable file. -/
def persist (s : SysState) : SysState :=
  { s with file := s.mem }

/-- The startup migration (lines 67-69): `if migrate_llm_choices():
save_llm_choices()`. -/
def startupMigrateOp (s : SysState) : SysState :=
  let r := migrateAll s.mem
  if r.2 then persist { s with mem := r.1 } else { s with mem := r.1 }

/-- The startup default-entry creation (lines 71-76): if the configured
guild has no entry, insert `{'model': 'gpt3_5', 'chatId': None}`.  The
source calls no `save_llm_choices()` here. -/
def ensureDefaultOp (gid : String) (s : SysState) : SysState :=
  match findEntry s.mem gid with
  | some _ => s
  | none => { s with mem := setEntry s.mem gid (.record "gpt3_5" none) }

/-- The `/llm-set` handler's store mutation followed by its
`save_llm_choices()` (line 291); the `KeyError` path saves nothing. -/
def llmSetOp (gid model : String) (s : SysState) : Option SysState :=
  (llm_set s.mem gid model).map (fun m => persist { s with mem := m })

/-- The `/reset` handler's store mutation followed by its
`save_llm_choices()` (line 319). -/
def resetOp (gid : String) (s : SysState) : Option SysState :=
  (resetStore s.mem gid).map (fun m => persist { s with mem := m })

/-- The `/clear` handler's store mutation followed by its
`save_llm_choices()` (line 420). -/
def clearOp (gid : String) (s : SysState) : Option SysState :=
  (clearStore s.mem gid).map (fun m => persist { s with mem := m })

/-- The `/askpoe` session-id update followed by its `save_llm_choices()`
(lines 172-173). -/
def sessionUpdateOp (gid sid : String) (s : SysState) : Option SysState :=
  (setSessionId s.mem gid sid).map (fun m => persist { s with mem := m })

/-- The defensive in-handler migration with its `save_llm_choices()`
(lines 148-156, 350-357): saves exactly when it rewrote a legacy entry. -/
def handlerMigrateOp (gid : String) (s : SysState) : SysState :=
  let r := handlerMigrate s.mem gid
  if r.2 then persist { s with mem := r.1 } else { s with mem := r.1 }

/-! ## Helper lemmas about the chunk loop -/

theorem splitChunksAux_nil (limit fuel : Nat) : splitChunksAux limit fuel [] = [] := by
  cases fuel <;> rfl

theorem splitChunksAux_flatten (limit : Nat) (hlim : 0 < limit) :
    ∀ fuel l, List.length l ≤ fuel → (splitChunksAux limit fuel l).flatten = l := by
  intro fuel
  induction fuel with
  | zero =>
      intro l hl
      have : l = [] := List.eq_nil_of_length_eq_zero (Nat.le_zero.mp hl)
      subst this; rfl
  | succ n ih =>
      intro l hl
      match l with
      | [] => rfl
      | c :: rest =>
          simp only [splitChunksAux, List.flatten_cons]
          rw [ih ((c :: rest).drop limit)
            (by rw [List.length_drop]; simp only [List.length_cons] at hl ⊢; omega)]
          exact List.take_append_drop limit (c :: rest)

theorem splitChunksAux_length_le (limit : Nat) :
    ∀ fuel l s, s ∈ splitChunksAux limit fuel l → s.length ≤ limit := by
  intro fuel
  induction fuel with
  | zero =>
      intro l s hs
      match l with
      | [] => simp [splitChunksAux] at hs
      | _ :: _ => simp [splitChunksAux] at hs
  | succ n ih =>
      intro l s hs
      match l with
      | [] => simp [splitChunksAux] at hs
      | c :: rest =>
          simp only [splitChunksAux, List.mem_cons] at hs
          rcases hs with h | h
          · subst h; exact List.length_take_le limit (c :: rest)
          · exact ih _ _ h

theorem splitChunksAux_dropLast_length (limit : Nat) (hlim : 0 < limit) :
    ∀ fuel l, List.length l ≤ fuel →
      ∀ s ∈ (splitChunksAux limit fuel l).dropLast, s.length = limit := by
  intro fuel
  induction fuel with
  | zero =>
      intro l hl s hs
      have : l = [] := List.eq_nil_of_length_eq_zero (Nat.le_zero.mp hl)
      subst this; simp [splitChunksAux] at hs
  | succ n ih =>
      intro l hl s hs
      match l with
      | [] => simp [splitChunksAux] at hs
      | c :: rest =>
          simp only [splitChunksAux] at hs
          rcases h0 : splitChunksAux limit n ((c :: rest).drop limit) with _ | ⟨t, ts⟩
          · rw [h0] at hs; simp at hs
          · rw [h0, List.dropLast_cons₂] at hs
            have hlong : limit ≤ (c :: rest).length := by
              by_contra hcon
              rw [List.drop_eq_nil_of_le (Nat.le_of_not_le hcon),
                splitChunksAux_nil] at h0
              simp at h0
            rcases List.mem_cons.mp hs with h | h
            · subst h
              simpa using Nat.min_eq_left hlong
            · have hr : s ∈ (splitChunksAux limit n ((c :: rest).drop limit)).dropLast := by
                rw [h0]; exact h
              exact ih ((c :: rest).drop limit)
                (by rw [List.length_drop]; simp only [List.length_cons] at hl ⊢; omega) s hr

theorem splitChunks_flatten (limit : Nat) (hlim : 0 < limit) (l : List Char) :
    (splitChunks limit l).flatten = l :=
  splitChunksAux_flatten limit hlim l.length l (Nat.le_refl _)

theorem splitChunks_length_le (limit : Nat) (l : List Char) :
    ∀ s ∈ splitChunks limit l, s.length ≤ limit := by
  intro s hs
  exact splitChunksAux_length_le limit l.length l s hs

theorem splitChunks_dropLast_length (limit : Nat) (hlim : 0 < limit) (l : List Char) :
    ∀ s ∈ (splitChunks limit l).dropLast, s.length = limit :=
  splitChunksAux_dropLast_length limit hlim l.length l (Nat.le_refl _)

/-! ## Helper lemmas about the store -/

theorem findEntry_setEntry_self (store : Store) (gid : String) (e : Entry) :
    findEntry (setEntry store gid e) gid = some e := by
  induction store with
  | nil => simp [findEntry, setEntry, List.find?]
  | cons kv rest ih =>
      obtain ⟨k, v⟩ := kv
      by_cases h : k = gid
      · subst h
        simp [findEntry, setEntry, List.find?]
      · simp only [setEntry, beq_iff_eq, if_neg h]
        show (List.find? _ _).map Prod.snd = _
        rw [List.find?_cons_of_neg _ (by simp [h])]
        exact ih

theorem migrateAll_fst (store : Store) :
    (migrateAll store).1 = store.map (fun kv => (kv.1, migrateEntry kv.2)) := by
  induction store with
  | nil => rfl
  | cons kv rest ih =>
      obtain ⟨k, v⟩ := kv
      cases v <;> simp [migrateAll, migrateEntry, ih]

theorem migrateAll_snd (store : Store) :
    (migrateAll store).2 = store.any (fun kv => kv.2.isLegacy) := by
  induction store with
  | nil => rfl
  | cons kv rest ih =>
      obtain ⟨k, v⟩ := kv
      cases v <;> simp [migrateAll, Entry.isLegacy, ih]

theorem migrateEntry_idem (e : Entry) : migrateEntry (migrateEntry e) = migrateEntry e := by
  cases e <;> rfl

theorem isLegacy_migrateEntry (e : Entry) : (migrateEntry e).isLegacy = false := by
  cases e <;> rfl

/-! ## Claim C1: chunk round-trip -/

theorem startsWithP_append (p l : List Char) : startsWithP p (p ++ l) := by
  simp [startsWithP, List.take_append]

/-- C1 counterexample: the claim also asserts that ONLY the first segment
starts with the prefix, for all bodies; at `pre = "A"`, `body = "AAA"`,
`limit = 2` the chunking is `["AA", "AA"]` and the second segment (a plain
slice of the body) also starts with `"A"`, so the claim as stated is
false. -/
theorem chunk_only_first_counterexample :
    ¬ (∀ (pre body : List Char) (limit : Nat), pre.length < limit →
        ∃ segs, chunk pre body limit = ChunkResult.ok segs ∧
          stripBodies pre segs = body ∧
          (∀ s ∈ segs, s.length ≤ limit) ∧
          ∀ i s, 0 < i → segs[i]? = some s → ¬ startsWithP pre s) := by
  intro hclaim
  obtain ⟨segs, hok, -, -, honly⟩ := hclaim ['A'] ['A', 'A', 'A'] 2 (by decide)
  have hval : chunk ['A'] ['A', 'A', 'A'] 2 =
      ChunkResult.ok [['A', 'A'], ['A', 'A']] := by decide
  rw [hval] at hok
  injection hok with hsegs
  exact honly 1 ['A', 'A'] (by decide) (by rw [← hsegs]; rfl) (by decide)

/-- C1 (amended): for all `body` and `pre` with `pre.length < limit`, the
chunking succeeds, concatenating the body portions of the segments (the
first with the prefix stripped) reproduces `body` exactly, every segment
has length at most `limit`, and the FIRST segment starts with `pre` (only
the first segment has the prefix attached; a later segment, being a plain
slice of the body, may coincidentally begin with the same characters). -/
theorem chunk_roundtrip (pre body : List Char) (limit : Nat)
    (h : pre.length < limit) :
    ∃ segs, chunk pre body limit = ChunkResult.ok segs ∧
      stripBodies pre segs = body ∧
      (∀ s ∈ segs, s.length ≤ limit) ∧
      ∃ s0 rest, segs = s0 :: rest ∧ startsWithP pre s0 := by
  by_cases hfit : pre.length + body.length ≤ limit
  · refine ⟨[pre ++ body], ?_, ?_, ?_, pre ++ body, [], rfl, startsWithP_append pre body⟩
    · simp only [chunk, if_pos hfit]
    · simp [stripBodies, List.drop_append]
    · intro s hs
      rw [List.mem_singleton] at hs
      subst hs
      simpa using hfit
  · have hlim : 0 < limit := Nat.lt_of_le_of_lt (Nat.zero_le _) h
    have h2 : ¬ (limit - pre.length = 0) := by omega
    refine ⟨(pre ++ body.take (limit - pre.length)) ::
        splitChunks limit (body.drop (limit - pre.length)), ?_, ?_, ?_,
      pre ++ body.take (limit - pre.length), _, rfl, startsWithP_append _ _⟩
    · simp only [chunk, if_neg hfit, if_neg h2]
    · simp only [stripBodies, List.drop_append, splitChunks_flatten limit hlim]
      simp
    · intro s hs
      rcases List.mem_cons.mp hs with hs | hs
      · subst hs
        have := List.length_take_le (limit - pre.length) body
        simp only [List.length_append]
        omega
      · exact splitChunks_length_le limit _ s hs

/-- C1 witness: the amended theorem applied at `pre = "A"`,
`body = "AAA"`, `limit = 2`. -/
theorem chunk_roundtrip_witness :
    ∃ segs, chunk ['A'] ['A', 'A', 'A'] 2 = ChunkResult.ok segs ∧
      stripBodies ['A'] segs = ['A', 'A', 'A'] ∧
      (∀ s ∈ segs, s.length ≤ 2) ∧
      ∃ s0 rest, segs = s0 :: rest ∧ startsWithP ['A'] s0 :=
  chunk_roundtrip ['A'] ['A', 'A', 'A'] 2 (by decide)

/-! ## Claim C4: multi-segment shape -/

/-- C4: when `pre.length + body.length > limit` and
`available = limit - pre.length > 0` (here `pre.length < limit`), the
chunking is exactly segment 1 = `pre ++ body[0:available]` followed by the
successive `limit`-sized slices of `body[available:]`, and every segment
except possibly the last has length exactly `limit` (the last holds the
remainder, so every segment is at most `limit` long). -/
theorem chunk_multi (pre body : List Char) (limit : Nat)
    (hover : limit < pre.length + body.length) (hpre : pre.length < limit) :
    chunk pre body limit =
      ChunkResult.ok ((pre ++ body.take (limit - pre.length)) ::
        splitChunks limit (body.drop (limit - pre.length))) ∧
    ∀ segs, chunk pre body limit = ChunkResult.ok segs →
      (∀ s ∈ segs.dropLast, s.length = limit) ∧ ∀ s ∈ segs, s.length ≤ limit := by
  have hlim : 0 < limit := Nat.lt_of_le_of_lt (Nat.zero_le _) hpre
  have h1 : ¬ (pre.length + body.length ≤ limit) := by omega
  have h2 : ¬ (limit - pre.length = 0) := by omega
  have heq : chunk pre body limit =
      ChunkResult.ok ((pre ++ body.take (limit - pre.length)) ::
        splitChunks limit (body.drop (limit - pre.length))) := by
    simp only [chunk, if_neg h1, if_neg h2]
  refine ⟨heq, ?_⟩
  intro segs hseg
  rw [heq] at hseg
  injection hseg with hsegs
  subst hsegs
  have hbody : limit - pre.length < body.length := by omega
  have hs0 : (pre ++ body.take (limit - pre.length)).length = limit := by
    simp only [List.length_append, List.length_take]
    omega
  constructor
  · intro s hs
    rcases h0 : splitChunks limit (body.drop (limit - pre.length)) with _ | ⟨t, ts⟩
    · rw [h0] at hs
      simp at hs
    · rw [h0, List.dropLast_cons₂] at hs
      rcases List.mem_cons.mp hs with hmem | hmem
      · subst hmem
        exact hs0
      · refine splitChunks_dropLast_length limit hlim (body.drop (limit - pre.length)) s ?_
        rw [h0]
        exact hmem
  · intro s hs
    rcases List.mem_cons.mp hs with hmem | hmem
    · subst hmem
      exact Nat.le_of_eq hs0
    · exact splitChunks_length_le limit _ s hmem

/-- C4 witness: `limit = 20`, `pre = "A:"`, `body` = 30 x's gives exactly
`["A:" ++ 18 x's, 12 x's]`, the spec's example. -/
theorem chunk_multi_witness :
    chunk ['A', ':'] (List.replicate 30 'x') 20 =
      ChunkResult.ok [['A', ':'] ++ List.replicate 18 'x', List.replicate 12 'x'] := by
  have h := (chunk_multi ['A', ':'] (List.replicate 30 'x') 20 (by decide) (by decide)).1
  rw [h]
  decide

/-! ## Claim C5: failure boundary -/

/-- C5 counterexample: the claim asserts failure for EVERY body including
the empty one; but with `pre` of length exactly `limit` and empty body the
combined message fits (`len(formatted) = limit ≤ limit`) and the chunker
returns the single segment `[pre]`, not the failure. -/
theorem chunk_boundary_counterexample :
    ¬ (∀ (pre body : List Char) (limit : Nat), limit ≤ pre.length →
        chunk pre body limit = ChunkResult.prefixTooLong) := by
  intro hclaim
  exact absurd (hclaim ['A'] [] 1 (by decide)) (by decide)

/-- C5 (amended): with `pre.length ≥ limit` the chunking fails with
`prefixTooLong` for every body EXCEPT the single boundary case
`pre.length = limit` with empty body, where the whole message is exactly
`limit` long, fits, and the single segment `[pre]` is returned. -/
theorem chunk_prefixTooLong_boundary (pre body : List Char) (limit : Nat)
    (hpre : limit ≤ pre.length) :
    (limit < pre.length + body.length →
      chunk pre body limit = ChunkResult.prefixTooLong) ∧
    (pre.length = limit → body = [] → chunk pre body limit = ChunkResult.ok [pre]) := by
  constructor
  · intro hover
    have h1 : ¬ (pre.length + body.length ≤ limit) := by omega
    have h2 : limit - pre.length = 0 := by omega
    simp only [chunk, if_neg h1, h2]
    simp
  · intro hlen hbody
    subst hbody
    have h1 : pre.length + ([] : List Char).length ≤ limit := by simp [hlen]
    simp only [chunk, if_pos h1, List.append_nil]

/-- C5 witness: the amended theorem applied at `pre = "AB"`, `body = "c"`,
`limit = 2` (failure half) — the hypotheses hold there and the chunker
fails with `prefixTooLong`. -/
theorem chunk_prefixTooLong_boundary_witness :
    chunk ['A', 'B'] ['c'] 2 = ChunkResult.prefixTooLong :=
  (chunk_prefixTooLong_boundary ['A', 'B'] ['c'] 2 (by decide)).1 (by decide)

/-! ## Claim C2: migration converts and is idempotent -/

/-- C2: one application of `migrate_llm_choices` converts every legacy
bare-string entry `S` (in place, at its position) to the record
`{model: S, chatId: None}` and returns `true` exactly when some entry was
legacy (a rewrite occurred); a second application immediately afterwards is
a no-op: it returns `false` and leaves the store identical. -/
theorem migrate_once_then_noop (store : Store) :
    (∀ (i : Nat) (gid s : String), store[i]? = some (gid, Entry.legacy s) →
      ((migrateAll store).1)[i]? = some (gid, Entry.record s none)) ∧
    ((migrateAll store).2 = true ↔ ∃ kv ∈ store, kv.2.isLegacy = true) ∧
    (migrateAll (migrateAll store).1 = ((migrateAll store).1, false)) := by
  refine ⟨?_, ?_, ?_⟩
  · intro i gid s hi
    rw [migrateAll_fst, List.getElem?_map, hi]
    rfl
  · rw [migrateAll_snd]
    exact List.any_eq_true
  · have h1 : (migrateAll (migrateAll store).1).1 = (migrateAll store).1 := by
      rw [migrateAll_fst (migrateAll store).1, migrateAll_fst store, List.map_map]
      exact List.map_congr_left (fun kv _ => by
        simp [Function.comp, migrateEntry_idem])
    have h2 : (migrateAll (migrateAll store).1).2 = false := by
      rw [migrateAll_snd, migrateAll_fst, List.any_map]
      simp [Function.comp, isLegacy_migrateEntry]
    rw [Prod.ext_iff]
    exact ⟨h1, h2⟩

/-! ## Claim C3: model change invalidates the session -/

/-- C3: if the store has a record entry for `gid` with an open session
(`chatId = some sid`), then the `/llm-set` mutation with any model `m`
succeeds and afterwards the entry for `gid` is `{model: m, chatId: None}`
— the session id is reset regardless of its prior value. -/
theorem setModel_invalidates_session (store : Store) (gid m m0 sid : String)
    (h : findEntry store gid = some (Entry.record m0 (some sid))) :
    llm_set store gid m = some (setEntry store gid (Entry.record m none)) ∧
    ∀ store', llm_set store gid m = some store' →
      findEntry store' gid = some (Entry.record m none) := by
  constructor
  · simp only [llm_set, h]
  · intro store' h'
    simp only [llm_set, h, Option.some.injEq] at h'
    subst h'
    exact findEntry_setEntry_self store gid (Entry.record m none)

/-- C3 witness: a one-entry store with model `gpt3_5` and open session
`chat7`; setting model `claude` yields the entry
`{model: claude, chatId: None}`. -/
theorem setModel_invalidates_session_witness :
    findEntry (setEntry [("g1", Entry.record "gpt3_5" (some "chat7"))] "g1"
      (Entry.record "claude" none)) "g1" = some (Entry.record "claude" none) := by
  have h := setModel_invalidates_session [("g1", Entry.record "gpt3_5" (some "chat7"))]
    "g1" "claude" "gpt3_5" "chat7" (by decide)
  exact h.2 _ h.1

/-! ## Claim C6: session update on an absent entry -/

/-- C6 counterexample: the claim says the session-id update must not throw
and is a no-op when the entry for `gid` is absent; in the source
`llm_choices[guild_id]['chatId'] = new_chat_id` raises `KeyError` on an
absent key (the `/askpoe` `.get` default is transient and never inserted),
so on the empty store the operation errors (`none`), not a no-op. -/
theorem setSessionId_absent_counterexample :
    ¬ (∀ (store : Store) (gid sid : String), findEntry store gid = none →
        setSessionId store gid sid = some store) := by
  intro hclaim
  exact absurd (hclaim [] "g1" "s1" rfl) (by decide)

/-- C6 (amended): the session-id update modifies only the `gid` entry when
a record entry exists; but when the entry is absent it raises `KeyError`
(modelled `none`, caught by the handler's generic except) — an error, not
a silent no-op (and on a legacy string entry it raises `TypeError`). -/
theorem setSessionId_behavior (store : Store) (gid sid : String) :
    (findEntry store gid = none → setSessionId store gid sid = none) ∧
    (∀ m c, findEntry store gid = some (Entry.record m c) →
      setSessionId store gid sid =
        some (setEntry store gid (Entry.record m (some sid)))) ∧
    (∀ s, findEntry store gid = some (Entry.legacy s) →
      setSessionId store gid sid = none) := by
  refine ⟨?_, ?_, ?_⟩
  · intro h; simp only [setSessionId, h]
  · intro m c h; simp only [setSessionId, h]
  · intro s h; simp only [setSessionId, h]

/-! ## Claim C7: setModel on an absent entry -/

/-- C7 counterexample: the claim says setModel creates the entry when it is
absent; in the source `llm_choices.get(guild_id)` returns `None`, the
`isinstance(str)` test fails, and `llm_choices[guild_id]['model'] = model`
raises `KeyError`, so on the empty store `/llm-set` fails and creates
nothing. -/
theorem setModel_create_counterexample :
    ¬ (∀ (store : Store) (gid model : String), findEntry store gid = none →
        ∃ store', llm_set store gid model = some store' ∧
          findEntry store' gid = some (Entry.record model none)) := by
  intro hclaim
  obtain ⟨store', h', -⟩ := hclaim [] "g1" "claude" rfl
  rw [show llm_set [] "g1" "claude" = none from rfl] at h'
  exact Option.noConfusion h'

/-- C7 (amended): setModel does NOT create an absent entry: with no entry
for `gid` the mutation raises `KeyError` (caught by the handler as a
generic failure) and no store is produced; an existing entry — legacy or
record — is set to `{model, chatId: None}`. -/
theorem setModel_absent_fails (store : Store) (gid model : String) :
    (findEntry store gid = none → llm_set store gid model = none) ∧
    (∀ e, findEntry store gid = some e →
      llm_set store gid model =
        some (setEntry store gid (Entry.record model none))) := by
  constructor
  · intro h; simp only [llm_set, h]
  · intro e h; cases e <;> simp only [llm_set, h]

/-! ## Claim C8: load never fails -/

/-- C8: the startup load never fails the caller: an absent durable file
yields the empty store; a present but unparsable file (the `json.load`
`JSONDecodeError` branch, which the source logs) also yields the empty
store; a parsable file yields its content. -/
theorem loadStore_total (parse : String → Option Store) :
    (loadStore parse none = []) ∧
    (∀ text, parse text = none → loadStore parse (some text) = []) ∧
    (∀ text store, parse text = some store → loadStore parse (some text) = store) := by
  refine ⟨rfl, ?_, ?_⟩
  · intro text h; simp only [loadStore, h]
  · intro text store h; simp only [loadStore, h]

/-! ## Claim C10: migration frame -/

/-- C10: migration preserves everything except legacy entries: the list of
keys (hence the set of keys) is unchanged, and every entry that is already
a record is left completely unchanged at its position. -/
theorem migrate_frame (store : Store) :
    ((migrateAll store).1.map Prod.fst = store.map Prod.fst) ∧
    (∀ (i : Nat) (gid m : String) (c : Option String),
      store[i]? = some (gid, Entry.record m c) →
      ((migrateAll store).1)[i]? = some (gid, Entry.record m c)) := by
  constructor
  · rw [migrateAll_fst, List.map_map]
    exact List.map_congr_left (fun kv _ => rfl)
  · intro i gid m c hi
    rw [migrateAll_fst, List.getElem?_map, hi]
    rfl

/-! ## Claim C9: persistence after every mutation -/

/-- C9 counterexample: the startup default-entry creation (src/main.py
lines 71-76) mutates the in-memory store but is not followed by
`save_llm_choices()`, so right after this store-mutating operation the
durable copy does not equal the in-memory store: starting from an empty
store and empty durable file, the default entry exists in memory only. -/
theorem persist_startup_counterexample :
    (ensureDefaultOp "g1" ⟨[], []⟩).mem ≠ ([] : Store) ∧
    (ensureDefaultOp "g1" ⟨[], []⟩).file ≠ (ensureDefaultOp "g1" ⟨[], []⟩).mem := by
  decide

/-- C9 (amended): every command-handler mutation of the store is
synchronously followed by writing the full in-memory store to the durable
file — after a successful `/llm-set`, `/reset`, `/clear`, `/askpoe`
session-id update, after a defensive in-handler migration that rewrote a
legacy entry, and after a startup migration that rewrote something, the
durable copy equals the in-memory store.  The startup default-entry
creation is the exception: it is not followed by a save, so it changes the
in-memory store while leaving the durable file untouched. -/
theorem persist_after_mutation (gid model sid : String) (s : SysState) :
    (∀ s', llmSetOp gid model s = some s' → s'.file = s'.mem) ∧
    (∀ s', resetOp gid s = some s' → s'.file = s'.mem) ∧
    (∀ s', clearOp gid s = some s' → s'.file = s'.mem) ∧
    (∀ s', sessionUpdateOp gid sid s = some s' → s'.file = s'.mem) ∧
    ((handlerMigrate s.mem gid).2 = true →
      (handlerMigrateOp gid s).file = (handlerMigrateOp gid s).mem) ∧
    ((migrateAll s.mem).2 = true →
      (startupMigrateOp s).file = (startupMigrateOp s).mem) ∧
    (findEntry s.mem gid = none →
      (ensureDefaultOp gid s).mem = setEntry s.mem gid (Entry.record "gpt3_5" none) ∧
      (ensureDefaultOp gid s).file = s.file) := by
  refine ⟨?_, ?_, ?_, ?_, ?_, ?_, ?_⟩
  · intro s' h
    cases hm : llm_set s.mem gid model with
    | none => simp [llmSetOp, hm] at h
    | some m =>
        simp only [llmSetOp, hm, Option.map_some', Option.some.injEq] at h
        subst h; rfl
  · intro s' h
    cases hm : resetStore s.mem gid with
    | none => simp [resetOp, hm] at h
    | some m =>
        simp only [resetOp, hm, Option.map_some', Option.some.injEq] at h
        subst h; rfl
  · intro s' h
    cases hm : clearStore s.mem gid with
    | none => simp [clearOp, hm] at h
    | some m =>
        simp only [clearOp, hm, Option.map_some', Option.some.injEq] at h
        subst h; rfl
  · intro s' h
    cases hm : setSessionId s.mem gid sid with
    | none => simp [sessionUpdateOp, hm] at h
    | some m =>
        simp only [sessionUpdateOp, hm, Option.map_some', Option.some.injEq] at h
        subst h; rfl
  · intro h
    simp only [handlerMigrateOp, h, if_pos]
    rfl
  · intro h
    simp only [startupMigrateOp, h, if_pos]
    rfl
  · intro h
    constructor <;> simp [ensureDefaultOp, h]

end LLMBot
